import Mathlib

/-!
Verification of the SnapRead RSVP playback engine (src/js/rsvp-engine.js)
against its natural-language specification.

Strings are modelled as lists of characters, JS numbers as rationals
(indices and word counts as integers), and the `setTimeout`/`clearTimeout`
machinery as an explicit pool of outstanding timer ids inside the engine
state, with a `fire` transition that the environment may invoke on any
outstanding id.  Every public operation returns the successor state
together with the list of events it emits, in emission order.
-/

namespace SnapRead

/-- A JS string, modelled as a list of characters. -/
abbrev Str := List Char

/-- ASCII letters and digits: the class `[a-zA-Z0-9]` used by
`_calculateDelay`'s stripping regex. -/
def isAlnum (c : Char) : Bool :=
  ('a' ≤ c && c ≤ 'z') || ('A' ≤ c && c ≤ 'Z') || ('0' ≤ c && c ≤ '9')

/-- The apostrophe character (U+0027), written by code point. -/
def apostrophe : Char := Char.ofNat 39

/-- The class `[a-zA-Z0-9À-ÿ'-]` kept by `calculateORP`'s stripping regex
(`À` = U+00C0, `ÿ` = U+00FF). -/
def isOrpKept (c : Char) : Bool :=
  isAlnum c || (0xC0 ≤ c.toNat && c.toNat ≤ 0xFF) || c = apostrophe || c = '-'

/-- `word.replace(/[^a-zA-Z0-9À-ÿ'-]/g, '')` in `calculateORP`. -/
def cleanWordORP (w : Str) : Str := w.filter isOrpKept

/-- `RSVPEngine.calculateORP`: index of the optimal-recognition-point
letter, computed from the stripped length. -/
def calculateORP (w : Str) : Nat :=
  let len := (cleanWordORP w).length
  if len ≤ 0 then 0
  else if len = 1 then 0
  else if len = 2 then 0
  else if len = 3 then 1
  else (⌊(len : ℚ) * 0.35⌋).toNat

/-- `Math.round` in JS rounds half away from zero upward: `⌊x + 0.5⌋`. -/
def jsRound (x : ℚ) : ℤ := ⌊x + 1 / 2⌋

/-- The record returned by `RSVPEngine.splitAtORP` (field `orp` holds the
one-character string `word[orpIndex]`, or the empty string when the index
is out of bounds). -/
structure ORPSplit where
  before : Str
  orp : Str
  after : Str
  orpIndex : Nat
  wordLength : Nat
  deriving DecidableEq, Repr

/-- `RSVPEngine.splitAtORP`: split the original (unstripped) word at the
computed ORP index. -/
def splitAtORP (w : Str) : ORPSplit :=
  let orpIndex := calculateORP w
  { before := w.take orpIndex
    orp := match w[orpIndex]? with
           | some c => [c]
           | none => []
    after := w.drop (orpIndex + 1)
    orpIndex := orpIndex
    wordLength := w.length }

/-- `word.replace(/[^a-zA-Z0-9]/g, '').length` in `_calculateDelay`. -/
def cleanLen (w : Str) : Nat := (w.filter isAlnum).length

/-- `['.', '!', '?']` — sentence-ending punctuation. -/
def sentenceEndChars : List Char := ['.', '!', '?']

/-- `[',', ';', ':']` — clause punctuation. -/
def clauseChars : List Char := [',', ';', ':']

/-- The closing-quote/parenthesis list of `_calculateDelay`: in the
source file all three quote entries are literally the ASCII double quote
U+0022, followed by the (escaped) apostrophe and the closing
parenthesis. -/
def closingChars : List Char := ['"', '"', '"', apostrophe, ')']

/-- `RSVPEngine._calculateDelay`, with the stored words-per-minute rate
passed explicitly: base delay `60000 / wpm`, length modifier, one
additive punctuation bonus selected by the raw last character, an
additive paragraph bonus for an embedded newline or pilcrow, and a final
`Math.round`. -/
def calculateDelay (w : Str) (wpm : ℚ) : ℤ :=
  let baseDelay : ℚ := 60000 / wpm
  let cl := cleanLen w
  let modifier0 : ℚ := if cl ≤ 3 then 0.8 else if 8 ≤ cl then 1.2 else 1.0
  let modifier1 : ℚ :=
    match w.getLast? with
    | some c =>
        if c ∈ sentenceEndChars then modifier0 + 1.0
        else if c ∈ clauseChars then modifier0 + 0.6
        else if c ∈ closingChars then modifier0 + 0.3
        else modifier0
    | none => modifier0
  let modifier2 : ℚ :=
    if w.contains '\n' || w.contains '¶' then modifier1 + 1.5 else modifier1
  jsRound (baseDelay * modifier2)

/-- `RSVPEngine._formatTime` (the argument is in minutes).  For `m ≥ 60`
the JS remainder `m % 60` equals `m - 60⌊m/60⌋` since `m` is positive. -/
def formatTime (minutes : ℚ) : String :=
  if minutes < 1 then "< 1 min"
  else if minutes < 60 then toString ⌈minutes⌉ ++ " min"
  else
    let hrs := ⌊minutes / 60⌋
    let mins := ⌈minutes - 60 * ⌊minutes / 60⌋⌉
    toString hrs ++ "h " ++ toString mins ++ "m"

/-- The record returned by `RSVPEngine._progressData`. -/
structure Progress where
  current : ℤ
  total : ℤ
  percent : ℚ
  wordsRemaining : ℤ
  timeRemaining : String
  deriving DecidableEq, Repr

/-- The event channels used by the engine (`'load'`, `'play'`, …). -/
inductive Chan where
  | load | play | pause | stop | ended | word | progress | speedChange
  deriving DecidableEq, Repr

/-- An emitted event together with its payload. -/
inductive Ev where
  | load (totalWords : ℤ) (currentIndex : ℤ)
  | play
  | pause (wordIndex : ℤ)
  | stop
  | ended
  | word (w : Str) (index : ℤ) (split : ORPSplit)
  | progress (p : Progress)
  | speedChange (wpm : ℚ)
  deriving DecidableEq, Repr

/-- The channel an event is emitted on. -/
def Ev.chan : Ev → Chan
  | .load _ _ => .load
  | .play => .play
  | .pause _ => .pause
  | .stop => .stop
  | .ended => .ended
  | .word _ _ _ => .word
  | .progress _ => .progress
  | .speedChange _ => .speedChange

/-- `this._listeners`: for each channel, the registered callbacks in
registration order.  Callbacks are opaque, identified by numbers. -/
abbrev Listeners := List (Chan × List ℕ)

/-- Look up the callback array registered for a channel (`[]` when the
channel has no entry, like a missing JS object property). -/
def getListeners : Listeners → Chan → List ℕ
  | [], _ => []
  | (c', cbs) :: rest, c => if c' = c then cbs else getListeners rest c

/-- `!this._listeners[event]`: whether the channel already has an entry. -/
def hasChan : Listeners → Chan → Bool
  | [], _ => false
  | (c', _) :: rest, c => c' = c || hasChan rest c

/-- `this._listeners[event] = …`: replace the value stored under an
existing channel key (JS object keys are unique, so only the first —
only — match is updated). -/
def updateChan (L : Listeners) (c : Chan) (f : List ℕ → List ℕ) : Listeners :=
  match L with
  | [] => []
  | (c', cbs) :: rest =>
    if c' = c then (c', f cbs) :: rest else (c', cbs) :: updateChan rest c f

/-- `RSVPEngine.on`: create the entry on first use, then push the
callback.  (The unsubscribe closure it returns behaves exactly like
`off` with the same arguments.) -/
def onListeners (L : Listeners) (c : Chan) (cb : ℕ) : Listeners :=
  if hasChan L c then
    updateChan L c fun cbs => cbs ++ [cb]
  else
    L ++ [(c, [cb])]

/-- `RSVPEngine.off`: filter out every occurrence of the callback under
the channel; no entry means no change. -/
def offListeners (L : Listeners) (c : Chan) (cb : ℕ) : Listeners :=
  if hasChan L c then
    updateChan L c fun cbs => cbs.filter fun x => x ≠ cb
  else
    L

/-- `RSVPEngine._emit` invokes exactly the callbacks currently registered
for the event's channel, in order: the invocation list of an emission. -/
def invocations (L : Listeners) (c : Chan) : List ℕ := getListeners L c

/-- The full engine state.  `timerId`/`outstanding`/`nextId` model the
`setTimeout` machinery: `timerId` is the field `this.timerId`,
`outstanding` the pool of scheduled-but-not-yet-fired (and uncancelled)
timeout ids, `nextId` the next fresh id (ids start at 1, so the truthy
test `if (this.timerId)` coincides with an `Option` test). -/
structure EngineState where
  words : List Str
  currentIndex : ℤ
  isPlaying : Bool
  isPaused : Bool
  timerId : Option ℕ
  wpm : ℚ
  chunkSize : ℤ
  listeners : Listeners
  outstanding : List ℕ
  nextId : ℕ
  deriving DecidableEq, Repr

/-- The `RSVPEngine` constructor. -/
def initState : EngineState :=
  { words := [], currentIndex := 0, isPlaying := false, isPaused := false
    timerId := none, wpm := 300, chunkSize := 1
    listeners := [], outstanding := [], nextId := 1 }

/-- `RSVPEngine._clearTimer`: `clearTimeout` the stored id (removing it
from the outstanding pool) and null the field. -/
def clearTimer (s : EngineState) : EngineState :=
  match s.timerId with
  | some t => { s with outstanding := s.outstanding.filter fun x => x ≠ t
                       timerId := none }
  | none => s

/-- `this.words[i]`, with out-of-range access giving `undefined`, which
`Array.prototype.join` renders as the empty string. -/
def wordAt (ws : List Str) (i : ℤ) : Str :=
  if 0 ≤ i then (ws.getD i.toNat []) else []

/-- The chunk-collection loop of `_tick`/`_emitCurrentWord`:
`for (let i = 0; i < chunkSize && currentIndex + i < words.length; i++)`
followed by `chunk.join(' ')`. -/
def displayChunk (s : EngineState) : Str :=
  let len : ℤ := s.words.length
  let k : ℕ := (min s.chunkSize (len - s.currentIndex)).toNat
  List.intercalate [' '] ((List.range k).map fun i => wordAt s.words (s.currentIndex + i))

/-- `RSVPEngine._progressData`. -/
def progressData (s : EngineState) : Progress :=
  let total : ℤ := s.words.length
  let current := s.currentIndex
  let percent : ℚ := if total > 0 then ((current : ℚ) / (total : ℚ)) * 100 else 0
  let wordsRemaining := max 0 (total - current)
  let minutesRemaining : ℚ := (wordsRemaining : ℚ) / s.wpm
  { current := current, total := total
    percent := min 100 percent
    wordsRemaining := wordsRemaining
    timeRemaining := formatTime minutesRemaining }

/-- `RSVPEngine._tick`.  The recursive `setTimeout(() => this._tick(), delay)`
is modelled by drawing a fresh timeout id: the continuation runs when the
environment later `fire`s that id.  The computed `_calculateDelay` value
only determines *when* the timeout fires, which the model abstracts away. -/
def tick (s : EngineState) : EngineState × List Ev :=
  if !s.isPlaying || s.currentIndex ≥ (s.words.length : ℤ) then
    if s.currentIndex ≥ (s.words.length : ℤ) then
      ({ s with isPlaying := false }, [Ev.ended])
    else
      (s, [])
  else
    let dw := displayChunk s
    let evWord := Ev.word dw s.currentIndex (splitAtORP dw)
    let evProg := Ev.progress (progressData s)
    let s₁ := { s with currentIndex := s.currentIndex + s.chunkSize }
    let s₂ := { s₁ with timerId := some s₁.nextId
                        outstanding := s₁.outstanding ++ [s₁.nextId]
                        nextId := s₁.nextId + 1 }
    (s₂, [evWord, evProg])

/-- A scheduled timeout firing: the environment may run any outstanding
id; firing removes it from the pool and executes `() => this._tick()`.
A cancelled (or never-issued) id does not fire: `none`. -/
def fire (id : ℕ) (s : EngineState) : Option (EngineState × List Ev) :=
  if id ∈ s.outstanding then
    some (tick { s with outstanding := s.outstanding.filter fun x => x ≠ id })
  else
    none

/-- `RSVPEngine.load`. -/
def load (s : EngineState) (ws : List Str) (startIndex : ℤ) : EngineState × List Ev :=
  let ci := min startIndex ((ws.length : ℤ) - 1)
  let s₁ := clearTimer { s with words := ws, currentIndex := ci,
                                isPlaying := false, isPaused := false }
  (s₁, [Ev.load ws.length ci])

/-- `RSVPEngine.play`. -/
def play (s : EngineState) : EngineState × List Ev :=
  if s.words.length = 0 then (s, [])
  else
    let s₁ := if s.currentIndex ≥ (s.words.length : ℤ)
              then { s with currentIndex := 0 } else s
    let s₂ := { s₁ with isPlaying := true, isPaused := false }
    ((tick s₂).1, Ev.play :: (tick s₂).2)

/-- `RSVPEngine.pause`. -/
def pause (s : EngineState) : EngineState × List Ev :=
  let s₁ := clearTimer { s with isPlaying := false, isPaused := true }
  (s₁, [Ev.pause s₁.currentIndex])

/-- `RSVPEngine.togglePlay`. -/
def togglePlay (s : EngineState) : EngineState × List Ev :=
  if s.isPlaying then pause s else play s

/-- `/[.!?]$/.test(word)` (also covering the falsy guard: the empty
string and `undefined` both fail). -/
def lastIsSentenceEnd (w : Str) : Bool :=
  match w.getLast? with
  | some c => c ∈ sentenceEndChars
  | none => false

/-- `RSVPEngine._findSentenceStart`'s backward loop, checking indices
`j-1, j-2, …, 0` (out-of-range reads are `undefined` and skipped; the
`word &&` guard only skips values that fail the regex anyway). -/
def scanBack (ws : List Str) : ℕ → ℤ
  | 0 => 0
  | j + 1 =>
    if lastIsSentenceEnd (ws.getD j []) then (j : ℤ) + 1 else scanBack ws j

/-- `RSVPEngine._findSentenceStart`. -/
def findSentenceStart (ws : List Str) (index : ℤ) : ℤ :=
  scanBack ws index.toNat

/-- `RSVPEngine._findSentenceEnd`'s forward loop from position `i` over
the remaining words. -/
def scanFwd (len : ℤ) : ℤ → List Str → ℤ
  | _, [] => len - 1
  | i, w :: rest =>
    if lastIsSentenceEnd w then min (i + 1) (len - 1) else scanFwd len (i + 1) rest

/-- `RSVPEngine._findSentenceEnd` (a negative start index reads
`undefined` until `i` reaches 0, skipping, exactly like starting at 0). -/
def findSentenceEnd (ws : List Str) (index : ℤ) : ℤ :=
  let start := max index 0
  scanFwd (ws.length : ℤ) start (ws.drop start.toNat)

/-- `RSVPEngine._emitCurrentWord`. -/
def emitCurrentWord (s : EngineState) : List Ev :=
  if s.currentIndex < (s.words.length : ℤ) then
    let dw := displayChunk s
    [Ev.word dw s.currentIndex (splitAtORP dw)]
  else []

/-- `RSVPEngine.rewind` (`none` = called with no argument). -/
def rewind (s : EngineState) (count : Option ℤ) : EngineState × List Ev :=
  let ci := match count with
    | some c => max 0 (s.currentIndex - c)
    | none => findSentenceStart s.words s.currentIndex
  let s₁ := { s with currentIndex := ci }
  (s₁, emitCurrentWord s₁ ++ [Ev.progress (progressData s₁)])

/-- `RSVPEngine.skip` (`none` = called with no argument). -/
def skip (s : EngineState) (count : Option ℤ) : EngineState × List Ev :=
  let ci := match count with
    | some c => min ((s.words.length : ℤ) - 1) (s.currentIndex + c)
    | none => findSentenceEnd s.words s.currentIndex
  let s₁ := { s with currentIndex := ci }
  (s₁, emitCurrentWord s₁ ++ [Ev.progress (progressData s₁)])

/-- `RSVPEngine.jumpTo`. -/
def jumpTo (s : EngineState) (index : ℤ) : EngineState × List Ev :=
  let s₁ := { s with currentIndex := max 0 (min index ((s.words.length : ℤ) - 1)) }
  (s₁, emitCurrentWord s₁ ++ [Ev.progress (progressData s₁)])

/-- `RSVPEngine.setSpeed`. -/
def setSpeed (s : EngineState) (wpm : ℚ) : EngineState × List Ev :=
  let s₁ := { s with wpm := max 50 (min 1500 wpm) }
  (s₁, [Ev.speedChange s₁.wpm])

/-- `RSVPEngine.setChunkSize`. -/
def setChunkSize (s : EngineState) (size : ℤ) : EngineState × List Ev :=
  ({ s with chunkSize := max 1 (min 3 size) }, [])

/-- `RSVPEngine.stop`. -/
def stop (s : EngineState) : EngineState × List Ev :=
  let s₁ := clearTimer { s with isPlaying := false, isPaused := false }
  (s₁, [Ev.stop])

/-- `RSVPEngine.getProgress`: returns the progress record and (being a
pure read) the unchanged state. -/
def getProgress (s : EngineState) : EngineState × Progress :=
  (s, progressData s)

/-- `RSVPEngine.on` acting on the engine state (`on` itself is a reserved
word in Lean). -/
def onEvent (s : EngineState) (c : Chan) (cb : ℕ) : EngineState :=
  { s with listeners := onListeners s.listeners c cb }

/-- `RSVPEngine.off` acting on the engine state. -/
def offEvent (s : EngineState) (c : Chan) (cb : ℕ) : EngineState :=
  { s with listeners := offListeners s.listeners c cb }

/-! ## Spec-side definitions

These restate, in the spec's own grouping, quantities the code computes,
so that the claims can be read off as equalities with the code-side
definitions above. -/

/-- The spec's length modifier: `≤3` chars → 0.8; `≥8` chars → 1.2;
else 1.0, on the alphanumeric-stripped length. -/
def lengthFactor (w : Str) : ℚ :=
  if cleanLen w ≤ 3 then 0.8 else if 8 ≤ cleanLen w then 1.2 else 1.0

/-- The spec's single additive punctuation bonus, selected by the raw
last character (0 when the last character is none of the listed ones,
or the chunk is empty). -/
def punctuationBonus (w : Str) : ℚ :=
  match w.getLast? with
  | some c =>
      if c ∈ sentenceEndChars then 1.0
      else if c ∈ clauseChars then 0.6
      else if c ∈ closingChars then 0.3
      else 0
  | none => 0

/-- The spec's paragraph-break bonus: +1.5 when the chunk contains a
literal newline or pilcrow. -/
def paragraphBonus (w : Str) : ℚ :=
  if w.contains '\n' || w.contains '¶' then 1.5 else 0

/-- The step delay as the claim states it:
`round((60000/rate) × (lengthFactor + punctuationBonus + paragraphBonus))`. -/
def delaySpec (w : Str) (rate : ℚ) : ℤ :=
  jsRound ((60000 / rate) * (lengthFactor w + punctuationBonus w + paragraphBonus w))

/-- The ORP index as the claim groups the cases: 0 for clean length ≤ 2,
1 for length 3, `floor(len × 0.35)` for length ≥ 4, on the length after
stripping every character outside `[A-Za-z0-9À-ÿ'-]`. -/
def orpIndexSpec (w : Str) : ℕ :=
  let len := (w.filter isOrpKept).length
  if len ≤ 2 then 0
  else if len = 3 then 1
  else (⌊(len : ℚ) * 0.35⌋).toNat

/-- The claim's time format: `"< 1 min"` under one minute,
`"{ceil(minutes)} min"` under sixty, else
`"{hours}h {ceil(remaining minutes)}m"` with `hours = floor(minutes/60)`
and remaining minutes `minutes - 60·hours` (the JS `%` on a positive
argument). -/
def formatTimeSpec (minutes : ℚ) : String :=
  if minutes < 1 then "< 1 min"
  else if minutes < 60 then toString ⌈minutes⌉ ++ " min"
  else toString ⌊minutes / 60⌋ ++ "h " ++ toString ⌈minutes - 60 * ⌊minutes / 60⌋⌉ ++ "m"

/-! ## Theorems -/

/-- When every outstanding timeout id is the one tracked in `timerId`,
`_clearTimer` leaves no outstanding timeout at all. -/
theorem clearTimer_empties (s : EngineState)
    (hinv : ∀ id ∈ s.outstanding, s.timerId = some id) :
    (clearTimer s).outstanding = [] := by
  cases h : s.timerId with
  | none =>
    simp only [clearTimer, h]
    cases ho : s.outstanding with
    | nil => rfl
    | cons a l =>
      have h2 := hinv a (by rw [ho]; exact List.mem_cons_self a l)
      rw [h] at h2
      exact absurd h2 (by simp)
  | some t =>
    simp only [clearTimer, h]
    rw [List.filter_eq_nil_iff]
    intro a ha
    have h2 := hinv a ha
    rw [h] at h2
    injection h2 with h3
    simp [h3]

/-- From a state with no outstanding timeout, `play()` leaves at most the
one step it schedules, and an immediate `pause()` cancels it. -/
theorem pause_after_play_quiet (t : EngineState) (h : t.outstanding = []) :
    (pause (play t).1).1.outstanding = [] ∧ (play t).1.outstanding.length ≤ 1 := by
  have hclear : ∀ u : EngineState, u.outstanding = [] → (pause u).1.outstanding = [] :=
    fun u hu => clearTimer_empties _ fun id hid =>
      absurd (hu ▸ hid) (List.not_mem_nil id)
  have hmain : ∀ u : EngineState, u.isPlaying = true → u.outstanding = [] →
      ¬ u.currentIndex ≥ (u.words.length : ℤ) →
      (pause (tick u).1).1.outstanding = [] ∧ (tick u).1.outstanding.length ≤ 1 := by
    intro u hp ho hci
    simp only [tick, hp, Bool.not_true, Bool.false_or, decide_eq_true_eq, hci, if_false]
    refine ⟨?_, by simp [ho]⟩
    simp [pause, clearTimer, ho]
  simp only [play]
  split_ifs with hlen hci
  · exact ⟨hclear t h, by simp [h]⟩
  · exact hmain _ rfl h (by simp only [ge_iff_le]; push_neg; simp; omega)
  · exact hmain _ rfl h (by simpa using hci)

/-- C5, corrected: after `pause()`, `stop()` or `load()` the tracked
pending step is cancelled, and *provided every outstanding step is the
tracked one* (which holds in any run where `play()` is never invoked
while a step is already outstanding) no step at all remains outstanding,
so no step scheduled before the call can ever fire; `pause()` issued
immediately after a `play()` from a quiet state cancels the step that
play scheduled, and a step firing while the engine is not playing emits
no word or progress event.  Without the proviso the guarantee fails: see
the counterexample. -/
theorem c5_cancellation (s : EngineState) (ws : List Str) (i : ℤ)
    (hinv : ∀ id ∈ s.outstanding, s.timerId = some id) :
    (pause s).1.outstanding = [] ∧
    (stop s).1.outstanding = [] ∧
    (load s ws i).1.outstanding = [] ∧
    (pause (play { s with outstanding := [] }).1).1.outstanding = [] ∧
    (play { s with outstanding := [] }).1.outstanding.length ≤ 1 ∧
    (∀ t : EngineState, t.isPlaying = false →
      ∀ e ∈ (tick t).2, e.chan ≠ Chan.word ∧ e.chan ≠ Chan.progress) := by
  refine ⟨clearTimer_empties _ hinv, clearTimer_empties _ hinv,
          clearTimer_empties _ hinv,
          (pause_after_play_quiet _ rfl).1, (pause_after_play_quiet _ rfl).2,
          fun t ht e he => ?_⟩
  rw [tick] at he
  rw [ht] at he
  simp only [Bool.not_false, Bool.true_or, if_pos trivial] at he
  split at he <;> simp at he
  rw [he]
  exact ⟨by simp [Ev.chan], by simp [Ev.chan]⟩

/-- C5 witness: the amended cancellation guarantee applied to the
freshly constructed engine. -/
theorem c5_cancellation_witness :
    (pause initState).1.outstanding = [] ∧ (stop initState).1.outstanding = [] :=
  ⟨(c5_cancellation initState [] 0 (by simp [initState])).1,
   (c5_cancellation initState [] 0 (by simp [initState])).2.1⟩

/-- C5 counterexample: calling `play()` twice in a row (reachable through
the public API) leaves two scheduled steps outstanding at once, because
`play` does not cancel the step scheduled by the first call before
`_tick` schedules another; so "at most one scheduled step is outstanding
at any time" is false as stated. -/
theorem c5_two_outstanding_steps :
    ¬ ((play (play (load initState [['a'], ['b'], ['c'], ['d']] 0).1).1).1.outstanding.length ≤ 1) := by
  decide

/-- The backward sentence scan returns 0 when no index below `m` holds a
sentence-ending word. -/
theorem scanBack_eq_zero (ws : List Str) (m : ℕ)
    (h : ∀ j < m, lastIsSentenceEnd (ws.getD j []) = false) :
    scanBack ws m = 0 := by
  induction m with
  | zero => rfl
  | succ k ih =>
    rw [scanBack]
    simp only [h k (Nat.lt_succ_self k), if_false, Bool.false_eq_true]
    exact ih fun j hj => h j (Nat.lt_succ_of_lt hj)

/-- The backward sentence scan returns `j + 1` when `j` is the largest
index below `m` holding a sentence-ending word. -/
theorem scanBack_eq_succ (ws : List Str) (m j : ℕ) (hj : j < m)
    (hP : lastIsSentenceEnd (ws.getD j []) = true)
    (hmax : ∀ k, j < k → k < m → lastIsSentenceEnd (ws.getD k []) = false) :
    scanBack ws m = (j : ℤ) + 1 := by
  induction m with
  | zero => omega
  | succ n ih =>
    rw [scanBack]
    by_cases hn : j = n
    · subst hn
      rw [hP]
      simp
    · have hfn : lastIsSentenceEnd (ws.getD n []) = false :=
        hmax n (by omega) (Nat.lt_succ_self n)
      simp only [hfn, if_false, Bool.false_eq_true]
      exact ih (by omega) fun k hk1 hk2 => hmax k hk1 (by omega)

/-- The forward sentence scan returns `length - 1` when no remaining word
is sentence-ending. -/
theorem scanFwd_eq_none (len i : ℤ) (l : List Str)
    (h : ∀ v ∈ l, lastIsSentenceEnd v = false) :
    scanFwd len i l = len - 1 := by
  induction l generalizing i with
  | nil => rfl
  | cons v rest ih =>
    rw [scanFwd]
    simp only [h v (List.mem_cons_self v rest), if_false, Bool.false_eq_true]
    exact ih _ fun u hu => h u (List.mem_cons_of_mem v hu)

/-- The forward sentence scan stops at the first sentence-ending word and
returns the position immediately after it, clamped to `length - 1`. -/
theorem scanFwd_eq_found (len i : ℤ) (l₁ : List Str) (w : Str) (l₂ : List Str)
    (h₁ : ∀ v ∈ l₁, lastIsSentenceEnd v = false)
    (hw : lastIsSentenceEnd w = true) :
    scanFwd len i (l₁ ++ w :: l₂) = min (i + l₁.length + 1) (len - 1) := by
  induction l₁ generalizing i with
  | nil =>
    rw [List.nil_append, scanFwd]
    simp [hw]
  | cons v rest ih =>
    rw [List.cons_append, scanFwd]
    simp only [h₁ v (List.mem_cons_self v rest), if_false, Bool.false_eq_true]
    rw [ih _ fun u hu => h₁ u (List.mem_cons_of_mem v hu)]
    simp only [List.length_cons]
    congr 1
    push_cast
    ring

/-- C6: parameterless `rewind()` moves to `_findSentenceStart`, the
position immediately after the first sentence-ending word scanning
backward (0 when none); parameterless `skip()` moves to
`_findSentenceEnd`, the position immediately after the first
sentence-ending word scanning forward, clamped to `length - 1`
(`length - 1` when none); on `["A","quick.","brown","fox","jumped."]`,
`skip()` from index 0 lands at 2 and `rewind()` from index 4 lands
at 2. -/
theorem c6_sentence_navigation :
    (∀ s : EngineState,
      (rewind s none).1.currentIndex = findSentenceStart s.words s.currentIndex ∧
      (skip s none).1.currentIndex = findSentenceEnd s.words s.currentIndex) ∧
    (∀ (ws : List Str) (i : ℤ), findSentenceStart ws i = scanBack ws i.toNat) ∧
    (∀ (ws : List Str) (m j : ℕ), j < m → lastIsSentenceEnd (ws.getD j []) = true →
      (∀ k, j < k → k < m → lastIsSentenceEnd (ws.getD k []) = false) →
      scanBack ws m = (j : ℤ) + 1) ∧
    (∀ (ws : List Str) (m : ℕ), (∀ j < m, lastIsSentenceEnd (ws.getD j []) = false) →
      scanBack ws m = 0) ∧
    (∀ (ws : List Str) (i : ℤ),
      findSentenceEnd ws i = scanFwd (ws.length : ℤ) (max i 0) (ws.drop (max i 0).toNat)) ∧
    (∀ (len i : ℤ) (l₁ : List Str) (w : Str) (l₂ : List Str),
      (∀ v ∈ l₁, lastIsSentenceEnd v = false) → lastIsSentenceEnd w = true →
      scanFwd len i (l₁ ++ w :: l₂) = min (i + l₁.length + 1) (len - 1)) ∧
    (∀ (len i : ℤ) (l : List Str), (∀ v ∈ l, lastIsSentenceEnd v = false) →
      scanFwd len i l = len - 1) ∧
    (skip (load initState
        ["A".toList, "quick.".toList, "brown".toList, "fox".toList, "jumped.".toList] 0).1
      none).1.currentIndex = 2 ∧
    (rewind (jumpTo (load initState
        ["A".toList, "quick.".toList, "brown".toList, "fox".toList, "jumped.".toList] 0).1
      4).1 none).1.currentIndex = 2 :=
  ⟨fun _ => ⟨rfl, rfl⟩, fun _ _ => rfl, scanBack_eq_succ, scanBack_eq_zero,
   fun _ _ => rfl, scanFwd_eq_found, scanFwd_eq_none, by decide, by decide⟩

/-- C6 witness: the forward scan applied to the empty remainder of an
empty sequence (no sentence-ending word) yields `length - 1 = -1`. -/
theorem c6_sentence_navigation_witness : scanFwd 0 0 [] = -1 :=
  c6_sentence_navigation.2.2.2.2.2.2.1 0 0 [] (by simp)

/-- C3: the claimed position invariant `0 ≤ index ≤ length` is broken by
the code: `load` clamps only from above (`Math.min(startIndex, length-1)`
with no lower clamp), so loading an empty sequence with the default
start index 0 puts the position at −1. -/
theorem c3_position_invariant_broken :
    (load initState [] 0).1.currentIndex = -1 ∧
    ¬ (0 ≤ (load initState [] 0).1.currentIndex) := by decide

/-- C4: `load` does not clamp `startIndex` into `[0, length-1]` as
claimed: with a two-word sequence and `startIndex = -5` the stored
position is −5, not the clamped value 0. -/
theorem c4_load_negative_start :
    (load initState [['a'], ['b']] (-5)).1.currentIndex = -5 ∧
    max 0 (min (-5) ((2 : ℤ) - 1)) = 0 ∧
    (load initState [['a'], ['b']] (-5)).1.currentIndex ≠ 0 := by decide

/-- C1: for every chunk `w` and rate, `_calculateDelay` equals
`round((60000/rate) × modifier)` where the modifier is the length factor
on the alphanumeric-stripped length plus exactly one punctuation bonus
chosen by the raw last character plus the paragraph bonus; in particular
`"cat."` at rate 300 gives 360 ms and `"word"` at 300 gives 200 ms. -/
theorem c1_delay_formula :
    (∀ (w : Str) (rate : ℚ), calculateDelay w rate = delaySpec w rate) ∧
    calculateDelay "cat.".toList 300 = 360 ∧
    calculateDelay "word".toList 300 = 200 := by
  refine ⟨fun w rate => ?_, ?_, ?_⟩
  · simp only [calculateDelay, delaySpec, lengthFactor, punctuationBonus, paragraphBonus]
    cases h : w.getLast? <;>
      simp only [h] <;> split_ifs <;> norm_num
  · simp [calculateDelay, jsRound, sentenceEndChars,
      show cleanLen ['c', 'a', 't', '.'] = 3 from by decide]
    norm_num
  · simp [calculateDelay, jsRound, sentenceEndChars, clauseChars, closingChars,
      show cleanLen ['w', 'o', 'r', 'd'] = 4 from by decide,
      show ¬ ('d' = apostrophe) from by decide]
    norm_num

/-- C2: `splitAtORP` computes the ORP index from the stripped length
(0 for length ≤ 2, 1 for length 3, `floor(len × 0.35)` for length ≥ 4)
and splits the original, unstripped word there, with `orp` the empty
string when the index falls outside the word; `"it"` gets index 0,
`"the"` index 1, `"elephant"` index 2. -/
theorem c2_splitAtORP :
    (∀ w : Str, calculateORP w = orpIndexSpec w) ∧
    (∀ w : Str,
      (splitAtORP w).before = w.take (calculateORP w) ∧
      (splitAtORP w).orp = ((w[calculateORP w]?).map fun c => [c]).getD [] ∧
      (splitAtORP w).after = w.drop (calculateORP w + 1) ∧
      (splitAtORP w).orpIndex = calculateORP w ∧
      (splitAtORP w).wordLength = w.length) ∧
    calculateORP "it".toList = 0 ∧
    calculateORP "the".toList = 1 ∧
    calculateORP "elephant".toList = 2 := by
  refine ⟨fun w => ?_, fun w => ?_, by decide, by decide, ?_⟩
  · simp only [calculateORP, orpIndexSpec, cleanWordORP]
    split_ifs <;> first | rfl | omega
  · refine ⟨rfl, ?_, rfl, rfl, rfl⟩
    simp only [splitAtORP]
    cases h : w[calculateORP w]? <;> simp [h]
  · simp [calculateORP,
      show cleanWordORP ['e', 'l', 'e', 'p', 'h', 'a', 'n', 't'] =
        ['e', 'l', 'e', 'p', 'h', 'a', 'n', 't'] from by decide]
    norm_num
    rfl

/-- C7: no public operation signals an error — each is a total function
that defensively clamps: `setSpeed` stores exactly `clamp(rate, 50, 1500)`,
`setChunkSize` stores exactly `clamp(size, 1, 3)`, `jumpTo` stores exactly
`clamp(index, 0, length-1)` in the code's `max 0 (min index (length-1))`
reading (0 on an empty sequence), and `play()` on an empty word sequence
returns the state unchanged and emits nothing. -/
theorem c7_defensive_clamping :
    (∀ (s : EngineState) (rate : ℚ), (setSpeed s rate).1.wpm = max 50 (min 1500 rate)) ∧
    (∀ (s : EngineState) (size : ℤ), (setChunkSize s size).1.chunkSize = max 1 (min 3 size)) ∧
    (∀ (s : EngineState) (i : ℤ),
      (jumpTo s i).1.currentIndex = max 0 (min i ((s.words.length : ℤ) - 1))) ∧
    (∀ s : EngineState, play { s with words := [] } = ({ s with words := [] }, [])) :=
  ⟨fun _ _ => rfl, fun _ _ => rfl, fun _ _ => rfl, fun _ => rfl⟩

/-- C8 counterexample: the state reached by `load([], -3000)` on a fresh
engine has an empty sequence, yet `getProgress()` reports 3000 words
remaining and `"10 min"` (not the `"< 1 min"` that `wordsRemaining = 0`
would give), because `load` stores the unclamped negative index. -/
theorem c8_empty_sequence_progress_counterexample :
    (load initState [] (-3000)).1.words = [] ∧
    (getProgress (load initState [] (-3000)).1).2.wordsRemaining = 3000 ∧
    (getProgress (load initState [] (-3000)).1).2.timeRemaining = "10 min" := by
  refine ⟨by decide, by decide, ?_⟩
  show formatTime (((max 0 ((0 : ℤ) - min (-3000) ((0 : ℤ) - 1)) : ℤ) : ℚ) / 300) = "10 min"
  norm_num
  rw [formatTime]
  norm_num
  rfl

/-- C8, corrected: `getProgress` is read-only and returns exactly the
claimed fields — `current` is the position, `total` the sequence length,
`percent = min(100, 100·current/total)` (0 when total is 0),
`wordsRemaining = max(0, total − current)`, and `timeRemaining` formatted
from `wordsRemaining/rate` minutes; and in every state whose sequence is
empty *and whose position is nonnegative* (e.g. the initial state — load
on an empty sequence makes the position negative) it returns percent 0,
wordsRemaining 0 and `"< 1 min"`. -/
theorem c8_progress_fields (s : EngineState) :
    (getProgress s).1 = s ∧
    (getProgress s).2.current = s.currentIndex ∧
    (getProgress s).2.total = (s.words.length : ℤ) ∧
    ((s.words.length : ℤ) = 0 → (getProgress s).2.percent = 0) ∧
    (0 < (s.words.length : ℤ) →
      (getProgress s).2.percent = min 100 (100 * (s.currentIndex : ℚ) / (s.words.length : ℚ))) ∧
    (getProgress s).2.wordsRemaining = max 0 ((s.words.length : ℤ) - s.currentIndex) ∧
    (getProgress s).2.timeRemaining =
      formatTimeSpec (((max 0 ((s.words.length : ℤ) - s.currentIndex) : ℤ) : ℚ) / s.wpm) ∧
    (s.words = [] → 0 ≤ s.currentIndex →
      (getProgress s).2.percent = 0 ∧ (getProgress s).2.wordsRemaining = 0 ∧
      (getProgress s).2.timeRemaining = "< 1 min") := by
  refine ⟨rfl, rfl, rfl, fun h0 => ?_, fun hpos => ?_, rfl, rfl, fun hw hci => ?_⟩
  · show min 100 (if (s.words.length : ℤ) > 0 then ((s.currentIndex : ℚ) / (s.words.length : ℚ)) * 100 else 0) = 0
    rw [if_neg (by omega)]
    norm_num
  · show min 100 (if (s.words.length : ℤ) > 0 then ((s.currentIndex : ℚ) / (s.words.length : ℚ)) * 100 else 0) = _
    rw [if_pos hpos]
    congr 1
    ring
  · have hlen : s.words.length = 0 := by rw [hw]; rfl
    have hwr : max 0 ((s.words.length : ℤ) - s.currentIndex) = 0 := by omega
    refine ⟨?_, hwr, ?_⟩
    · show min 100 (if (s.words.length : ℤ) > 0 then ((s.currentIndex : ℚ) / (s.words.length : ℚ)) * 100 else 0) = 0
      rw [if_neg (by omega)]
      norm_num
    · show formatTime (((max 0 ((s.words.length : ℤ) - s.currentIndex) : ℤ) : ℚ) / s.wpm) = _
      rw [hwr]
      rw [formatTime]
      norm_num

/-- C8 witness: the corrected empty-sequence clause applied to the fresh
engine state. -/
theorem c8_progress_fields_witness :
    (getProgress initState).2.percent = 0 ∧ (getProgress initState).2.wordsRemaining = 0 ∧
    (getProgress initState).2.timeRemaining = "< 1 min" :=
  (c8_progress_fields initState).2.2.2.2.2.2.2 rfl (by decide)

/-- C9: `stop()` cancels the tracked pending step (clearing `timerId` and
removing that id from the outstanding pool) and resets both status flags
while leaving the position and sequence unchanged; `rewind`, `skip` and
`jumpTo` never change the play/pause status, whatever their argument. -/
theorem c9_stop_and_navigation_frame :
    (∀ s : EngineState,
      (stop s).1.currentIndex = s.currentIndex ∧
      (stop s).1.words = s.words ∧
      (stop s).1.isPlaying = false ∧
      (stop s).1.isPaused = false ∧
      (stop s).1.timerId = none ∧
      (stop s).2 = [Ev.stop]) ∧
    (∀ (s : EngineState) (t : ℕ),
      (stop { s with timerId := some t }).1.outstanding =
        s.outstanding.filter fun x => x ≠ t) ∧
    (∀ (s : EngineState) (o : Option ℤ),
      (rewind s o).1.isPlaying = s.isPlaying ∧ (rewind s o).1.isPaused = s.isPaused ∧
      (skip s o).1.isPlaying = s.isPlaying ∧ (skip s o).1.isPaused = s.isPaused) ∧
    (∀ (s : EngineState) (i : ℤ),
      (jumpTo s i).1.isPlaying = s.isPlaying ∧ (jumpTo s i).1.isPaused = s.isPaused) := by
  refine ⟨fun s => ?_, fun s t => rfl, fun s o => ⟨rfl, rfl, rfl, rfl⟩,
          fun s i => ⟨rfl, rfl⟩⟩
  cases h : s.timerId <;> simp [stop, clearTimer, h]

/-- `_clearTimer` never touches the listener table. -/
theorem clearTimer_listeners (s : EngineState) :
    (clearTimer s).listeners = s.listeners := by
  cases h : s.timerId <;> simp [clearTimer, h]

/-- `_tick` never touches the listener table. -/
theorem tick_listeners (s : EngineState) : (tick s).1.listeners = s.listeners := by
  rw [tick]
  split
  · split <;> rfl
  · rfl

/-- `play` never touches the listener table. -/
theorem play_listeners (s : EngineState) : (play s).1.listeners = s.listeners := by
  rw [play]
  split_ifs <;> first | rfl | rw [tick_listeners]

/-- `pause` never touches the listener table. -/
theorem pause_listeners (s : EngineState) : (pause s).1.listeners = s.listeners :=
  clearTimer_listeners _

/-- A channel without an entry yields the empty callback list. -/
theorem getListeners_not_has (L : Listeners) (c : Chan) (h : hasChan L c = false) :
    getListeners L c = [] := by
  induction L with
  | nil => rfl
  | cons p rest ih =>
    obtain ⟨c', cbs⟩ := p
    rw [hasChan] at h
    simp only [Bool.or_eq_false_iff, decide_eq_false_iff_not] at h
    rw [getListeners, if_neg h.1]
    exact ih h.2

/-- Effect of the entry update both `on` and `off` perform on the
looked-up callback list (when the entry exists). -/
theorem getListeners_update (L : Listeners) (c : Chan) (g : List ℕ → List ℕ)
    (h : hasChan L c = true) :
    getListeners (updateChan L c g) c = g (getListeners L c) := by
  induction L with
  | nil => cases h
  | cons p rest ih =>
    obtain ⟨c', cbs⟩ := p
    rw [updateChan]
    by_cases hc : c' = c
    · rw [if_pos hc, getListeners, if_pos hc, getListeners, if_pos hc]
    · rw [if_neg hc, getListeners, if_neg hc, getListeners, if_neg hc]
      apply ih
      rw [hasChan] at h
      simpa [hc] using h

/-- Appending a fresh entry at the tail is found when no earlier entry
matches. -/
theorem getListeners_append_single (L : Listeners) (c : Chan) (cbs : List ℕ)
    (h : hasChan L c = false) : getListeners (L ++ [(c, cbs)]) c = cbs := by
  induction L with
  | nil => simp [getListeners]
  | cons p rest ih =>
    obtain ⟨c', l⟩ := p
    rw [hasChan] at h
    simp only [Bool.or_eq_false_iff, decide_eq_false_iff_not] at h
    rw [List.cons_append, getListeners, if_neg h.1]
    exact ih h.2

/-- `on` appends the callback to the channel's invocation list. -/
theorem invocations_on (L : Listeners) (c : Chan) (cb : ℕ) :
    invocations (onListeners L c cb) c = invocations L c ++ [cb] := by
  rw [invocations, invocations, onListeners]
  split_ifs with h
  · rw [getListeners_update L c _ h]
  · rw [getListeners_append_single L c [cb] (by simpa using h),
        getListeners_not_has L c (by simpa using h)]
    rfl

/-- `off` removes every occurrence of the callback from the channel's
invocation list. -/
theorem invocations_off (L : Listeners) (c : Chan) (cb : ℕ) :
    invocations (offListeners L c cb) c = (invocations L c).filter fun x => x ≠ cb := by
  rw [invocations, invocations, offListeners]
  split_ifs with h
  · rw [getListeners_update L c _ h]
  · rw [getListeners_not_has L c (by simpa using h)]
    rfl

/-- C10: every playback operation — `load` (the implicit reset), `play`,
`pause`, `stop`, `togglePlay`, `rewind`, `skip`, `jumpTo`, `setSpeed`,
`setChunkSize`, an autoplay `_tick` and a timeout firing — leaves the
listener table unchanged, so subscriptions persist across document
loads; only `on`/`off` modify it, `off` removes every registration of
the callback under that channel at once, and a callback registered twice
appears twice in each emission's invocation list until removed. -/
theorem c10_listener_table :
    (∀ (s : EngineState) (ws : List Str) (i : ℤ), (load s ws i).1.listeners = s.listeners) ∧
    (∀ s : EngineState, (play s).1.listeners = s.listeners) ∧
    (∀ s : EngineState, (pause s).1.listeners = s.listeners) ∧
    (∀ s : EngineState, (stop s).1.listeners = s.listeners) ∧
    (∀ s : EngineState, (togglePlay s).1.listeners = s.listeners) ∧
    (∀ (s : EngineState) (o : Option ℤ),
      (rewind s o).1.listeners = s.listeners ∧ (skip s o).1.listeners = s.listeners) ∧
    (∀ (s : EngineState) (i : ℤ), (jumpTo s i).1.listeners = s.listeners) ∧
    (∀ (s : EngineState) (r : ℚ), (setSpeed s r).1.listeners = s.listeners) ∧
    (∀ (s : EngineState) (c : ℤ), (setChunkSize s c).1.listeners = s.listeners) ∧
    (∀ s : EngineState, (tick s).1.listeners = s.listeners) ∧
    (∀ (s : EngineState) (id : ℕ),
      (fire id s).elim True fun p => p.1.listeners = s.listeners) ∧
    (∀ (s : EngineState) (c : Chan) (cb : ℕ),
      (onEvent s c cb).listeners = onListeners s.listeners c cb ∧
      (offEvent s c cb).listeners = offListeners s.listeners c cb) ∧
    (∀ (L : Listeners) (c : Chan) (cb : ℕ),
      invocations (offListeners L c cb) c = (invocations L c).filter fun x => x ≠ cb) ∧
    (∀ (L : Listeners) (c : Chan) (cb : ℕ),
      invocations (onListeners (onListeners L c cb) c cb) c = invocations L c ++ [cb, cb]) := by
  refine ⟨fun s ws i => clearTimer_listeners _, play_listeners, pause_listeners,
          fun s => clearTimer_listeners _, fun s => ?_, fun s o => ⟨rfl, rfl⟩,
          fun s i => rfl, fun s r => rfl, fun s c => rfl, tick_listeners,
          fun s id => ?_, fun s c cb => ⟨rfl, rfl⟩, invocations_off, fun L c cb => ?_⟩
  · rw [togglePlay]
    split_ifs
    · exact pause_listeners s
    · exact play_listeners s
  · rw [fire]
    split_ifs with h
    · exact tick_listeners _
    · trivial
  · rw [invocations_on, invocations_on, List.append_assoc]
    rfl

end SnapRead
